import Mathlib

/-!
Verification development for the avatar-faiss-rag repository.

Shallow embedding of the query classification, filter synthesis and
retrieval pipeline:
  * `src/kb/optimized-rag-engine.js` — `ensureCompleteSentence`,
    `OptimizedRAGEngine.matchesFilter`, `.search`, `.generateAnswer`, `.query`;
  * `SmartRouter` (router source file) — `classifyQuestion`,
    `extractProductFilter`, `_cacheResult`, `_cacheFilter`.

JavaScript strings are modelled as `List Char`, JavaScript `Map`s as
association lists in insertion order, floating point scores as exact
rationals, and throwing collaborator calls as `Except`-valued oracles.
-/

namespace AvatarRag

/-- Strings of the JavaScript source, modelled as lists of characters. -/
abbrev Str := List Char

/-- JavaScript `toLowerCase()` (ASCII case fold, which covers all text the
router compares). -/
def toLowerStr (s : Str) : Str := s.map Char.toLower

/-- JavaScript `trim()`: drop whitespace from both ends. -/
def trimStr (s : Str) : Str :=
  ((s.dropWhile Char.isWhitespace).reverse.dropWhile Char.isWhitespace).reverse

/-- The router's normalization: `text.toLowerCase().trim()`. -/
def strNorm (s : Str) : Str := trimStr (toLowerStr s)

/-- Does `pre` occur at the head of `s`?  On success return the rest of `s`. -/
def stripPre : Str → Str → Option Str
  | [], s => some s
  | _, [] => none
  | p :: ps, c :: cs => if p = c then stripPre ps cs else none

/-- JavaScript `hay.includes(pat)`: substring containment. -/
def strIncludes (hay pat : Str) : Bool :=
  match stripPre pat hay with
  | some _ => true
  | none =>
    match hay with
    | [] => false
    | _ :: rest => strIncludes rest pat

/-- Split on runs of whitespace, dropping empty pieces; on trimmed text this
is JavaScript `split(/\s+/)`. -/
def wordsGo : Str → Str → List Str
  | [], cur => if cur.isEmpty then [] else [cur.reverse]
  | c :: cs, cur =>
    if c.isWhitespace then
      (if cur.isEmpty then wordsGo cs [] else cur.reverse :: wordsGo cs [])
    else wordsGo cs (c :: cur)

/-- Words of a text, as used by the classifier's technical-keyword fast path. -/
def wordsOf (s : Str) : List Str := wordsGo s []

/-! ## JavaScript `Map` model

A `Map` is an association list in insertion order: `set` of a present key
updates it in place, `set` of a fresh key appends, `delete` removes it,
`keys().next().value` is the first key in insertion order. -/

/-- Lookup, `map.get(k)` / `map.has(k)`. -/
def jsGet [BEq K] (m : List (K × V)) (k : K) : Option V :=
  (m.find? (fun p => p.1 == k)).map (fun p => p.2)

/-- JavaScript `map.set(k, v)`. -/
def jsSet [BEq K] (m : List (K × V)) (k : K) (v : V) : List (K × V) :=
  if m.any (fun p => p.1 == k) then
    m.map (fun p => if p.1 == k then (k, v) else p)
  else m ++ [(k, v)]

/-- JavaScript `map.delete(k)` (under the `Map` invariant that keys are
unique, removing every entry with key `k` equals removing the one entry). -/
def jsDelete [BEq K] (m : List (K × V)) (k : K) : List (K × V) :=
  m.filter (fun p => !(p.1 == k))

/-- First inserted key, `map.keys().next().value`. -/
def jsFirstKey (m : List (K × V)) : Option K :=
  m.head?.map (fun p => p.1)

/-- SmartRouter cache size limit `CACHE_SIZE`. -/
def CACHE_SIZE : Nat := 100

/-- The body shared by `SmartRouter._cacheResult` and `SmartRouter._cacheFilter`:
evict the first-inserted key once the capacity is reached, then `set`. -/
def cachePut [BEq K] (m : List (K × V)) (k : K) (v : V) : List (K × V) :=
  let m' :=
    if CACHE_SIZE ≤ m.length then
      match jsFirstKey m with
      | some fk => jsDelete m fk
      | none => m
    else m
  jsSet m' k v

/-! ## The Filter language

A filter is a JavaScript object: either it carries an `$or` key (a list of
sub-filters; `matchesFilter` then ignores every other key), or it is a
conjunction of field clauses, each clause an equality against a scalar or a
`$in` membership list. -/

/-- A scalar JSON value appearing in metadata or filters. -/
inductive JVal where
  | s : String → JVal
  | n : Int → JVal
  | b : Bool → JVal
deriving DecidableEq, Repr

/-- A metadata field value: scalar or array of scalars. -/
inductive MVal where
  | prim : JVal → MVal
  | arr : List JVal → MVal
deriving DecidableEq, Repr

/-- JavaScript truthiness of a scalar (`''`, `0` and `false` are falsy);
`metadata[key] || []` replaces a falsy value by the empty array. -/
def JVal.truthy : JVal → Bool
  | .s str => !str.isEmpty
  | .n i => !(i = 0)
  | .b bv => bv

/-- One field clause of a filter object. -/
inductive FClause where
  | eq : JVal → FClause
  | isIn : List JVal → FClause
deriving DecidableEq, Repr

/-- A filter object: optional `$or` list plus ordinary field clauses. -/
inductive Filt where
  | node : Option (List Filt) → List (String × FClause) → Filt
deriving Repr

mutual

def filtBeq : Filt → Filt → Bool
  | .node o1 l1, .node o2 l2 => filtOptBeq o1 o2 && l1 == l2

def filtOptBeq : Option (List Filt) → Option (List Filt) → Bool
  | none, none => true
  | some a, some b => filtListBeq a b
  | _, _ => false

def filtListBeq : List Filt → List Filt → Bool
  | [], [] => true
  | x :: xs, y :: ys => filtBeq x y && filtListBeq xs ys
  | _, _ => false

end

instance : BEq Filt := ⟨filtBeq⟩

/-- A metadata record: field name to value, unique keys. -/
abbrev Metadata := List (String × MVal)

/-- Field access `metadata[key]`; `none` models `undefined`. -/
def mdGet (md : Metadata) (k : String) : Option MVal :=
  (md.find? (fun p => p.1 = k)).map (fun p => p.2)

/-- Evaluation of one field clause inside `OptimizedRAGEngine.matchesFilter`.
The `$in` branch reads `const actual = metadata[key] || []`: a missing or
falsy value becomes the empty array, over which `$in.some(...)` is false. -/
def clauseMatches (md : Metadata) (k : String) : FClause → Bool
  | .isIn vs =>
    match mdGet md k with
    | some (.arr a) => vs.any (fun v => a.contains v)
    | some (.prim p) => if p.truthy then vs.contains p else false
    | none => false
  | .eq v =>
    match mdGet md k with
    | some (.prim p) => p == v
    | some (.arr _) => false
    | none => false

mutual

/-- Body of `OptimizedRAGEngine.matchesFilter` for a present filter object:
if the object has an `$or` key, some sub-filter must match (other keys are
ignored); else every field clause must hold. -/
def filtMatches (md : Metadata) : Filt → Bool
  | .node (some subs) _ => filtAnyMatches md subs
  | .node none fields => fields.all (fun kc => clauseMatches md kc.1 kc.2)

def filtAnyMatches (md : Metadata) : List Filt → Bool
  | [] => false
  | f :: fs => filtMatches md f || filtAnyMatches md fs

end

/-- `OptimizedRAGEngine.matchesFilter(metadata, filter)`: a `null` filter
matches everything. -/
def matchesFilter (md : Metadata) : Option Filt → Bool
  | none => true
  | some f => filtMatches md f

/-! ## Answer finalizer -/

/-- Last index of `c` in `s`, `-1` when absent (JavaScript `lastIndexOf`). -/
def lastIdxGo (c : Char) : Str → Int → Int → Int
  | [], _, best => best
  | x :: xs, i, best => lastIdxGo c xs (i + 1) (if x = c then i else best)

def lastIdx (s : Str) (c : Char) : Int := lastIdxGo c s 0 (-1)

/-- Does the trimmed text already end in `.`, `!` or `?` (`/[.!?]$/`)? -/
def endsWithTerm (s : Str) : Bool :=
  match s.getLast? with
  | some c => c = '.' || c = '!' || c = '?'
  | none => false

/-- The source's `ensureCompleteSentence`.  The float comparison
`lastBreak > trimmed.length * 0.6` is embedded exactly as the rational
comparison `5 * lastBreak > 3 * length`. -/
def ensureCompleteSentence (text : Str) : Str :=
  if (trimStr text).isEmpty then text
  else
    let trimmed := trimStr text
    if endsWithTerm trimmed then trimmed
    else
      let lastBreak : Int :=
        max (lastIdx trimmed '.') (max (lastIdx trimmed '!') (lastIdx trimmed '?'))
      if 0 < lastBreak ∧ 3 * (trimmed.length : Int) < 5 * lastBreak then
        trimStr (trimmed.take (lastBreak.toNat + 1))
      else trimmed ++ ['.']

/-! ## SmartRouter

Pattern tables from the `SmartRouter` constructor, then `classifyQuestion`
and `extractProductFilter` as state-passing functions over the two bounded
caches. -/

/-- A value of `keywordRouteMap`: the routing rule's filter object together
with the `ruleName` the constructor spreads into it. -/
structure RouteInfo where
  target : Filt
  ruleName : String
deriving Repr

/-- Rational `n / 100`, for the source's confidence constants. -/
def conf (n : Nat) : ℚ := (n : ℚ) / 100

/-- A classification outcome: `type`, `confidence`, `reason` and, for
`route` outcomes, the matched routing rule. -/
structure ClassResult where
  type : String
  confidence : ℚ
  reason : String
  route : Option RouteInfo := none

/-- Leaf filter with no `$or` key. -/
def leafF (fields : List (String × FClause)) : Filt := .node none fields

/-- Filter that is only an `$or` of sub-filters. -/
def orF (subs : List Filt) : Filt := .node (some subs) []

/-- The flattened `keywordRouteMap`, keyword to route, in the constructor's
insertion order over `routingRules`. -/
def keywordRouteList : List (Str × RouteInfo) :=
  let specsRoute := RouteInfo.mk
    (leafF [("document_type", .eq (.s "family-guide")), ("category", .eq (.s "specs"))])
    "specs_queries"
  let perfRoute := RouteInfo.mk
    (leafF [("document_type", .eq (.s "benchmark-results")), ("category", .eq (.s "performance"))])
    "performance_queries"
  let howToRoute := RouteInfo.mk
    (leafF [("document_type", .eq (.s "solution-brief")), ("category", .eq (.s "management"))])
    "how_to_queries"
  let custRoute := RouteInfo.mk
    (leafF [("document_type", .eq (.s "customer-case-study"))]) "customer_proof"
  let latestRoute := RouteInfo.mk
    (leafF [("document_id", .eq (.s "web-scraped-content"))]) "latest_info"
  let virtRoute := RouteInfo.mk
    (orF [leafF [("category", .eq (.s "virtualization"))],
          leafF [("topics", .isIn [.s "virtualization", .s "vmware-alternative"])]])
    "virtualization"
  let aiRoute := RouteInfo.mk
    (leafF [("topics", .eq (.s "ai-inference")), ("document_type", .eq (.s "benchmark-results"))])
    "ai_inference"
  [("spec".toList, specsRoute), ("specification".toList, specsRoute),
   ("performance".toList, perfRoute), ("benchmark".toList, perfRoute), ("speed".toList, perfRoute),
   ("how to".toList, howToRoute), ("manage".toList, howToRoute),
   ("management".toList, howToRoute), ("solution".toList, howToRoute),
   ("customer".toList, custRoute), ("case study".toList, custRoute),
   ("reference".toList, custRoute), ("success stories".toList, custRoute),
   ("success story".toList, custRoute), ("customer success".toList, custRoute),
   ("latest".toList, latestRoute), ("recent".toList, latestRoute),
   ("update".toList, latestRoute), ("news".toList, latestRoute),
   ("vmware".toList, virtRoute), ("kvm".toList, virtRoute),
   ("virtualization".toList, virtRoute), ("hypervisor".toList, virtRoute),
   ("vmware alternative".toList, virtRoute),
   ("ai inference".toList, aiRoute), ("inference".toList, aiRoute),
   ("ml ai".toList, aiRoute), ("model benchmark".toList, aiRoute)]

/-- The registered routing keywords, in map insertion order. -/
def keywordKeys : List Str := keywordRouteList.map (fun p => p.1)

/-- Stable insertion into a list sorted by descending length: the new
element goes after every element of length greater than or equal to its
own. -/
def insertDesc (x : Str) : List Str → List Str
  | [] => [x]
  | y :: ys => if y.length < x.length then x :: y :: ys else y :: insertDesc x ys

/-- Stable sort by descending length, the behaviour of the source's
`Array.prototype.sort((a, b) => b.length - a.length)` (stable since
ES2019). -/
def sortDesc (l : List Str) : List Str := l.foldl (fun acc k => insertDesc k acc) []

/-- `SmartRouter.sortedKeywords`: the registered keywords, longest first. -/
def sortedKeywords : List Str := sortDesc keywordKeys

/-- The exact-match greeting alternatives of fast path 1,
`/^(hi|hello|hey|yes|no|ok|thanks)$/i` applied to the lowercased text. -/
def greetingAlts : List Str :=
  ["hi".toList, "hello".toList, "hey".toList, "yes".toList, "no".toList,
   "ok".toList, "thanks".toList]

/-- The technical/product vocabulary `kbKeywordsSet`. -/
def kbKeywords : List Str :=
  ["processor".toList, "memory".toList, "storage".toList, "ilo".toList, "com".toList,
   "feature".toList, "price".toList, "cost".toList, "compare".toList, "comparison".toList,
   "difference".toList, "generation".toList, "gen11".toList, "gen12".toList,
   "sku".toList, "part number".toList, "model".toList, "configuration".toList,
   "power".toList, "cooling".toList, "rack".toList, "dimensions".toList,
   "warranty".toList, "support".toList, "service".toList, "hpe".toList, "proliant".toList,
   "dl380".toList, "dl360".toList, "dl20".toList, "ml350".toList, "ml30".toList,
   "dl384".toList, "dl580".toList, "success".toList, "stories".toList, "customer".toList]

/-- Word character of JavaScript regex `\w` and `\b`. -/
def isWordChar (c : Char) : Bool := c.isAlpha || c.isDigit || c = '_'

/-- Word boundary `\b` before a word character: start of text or a
non-word character. -/
def boundaryBefore : Option Char → Bool
  | none => true
  | some c => !isWordChar c

/-- Word boundary `\b` after a word character: end of text or a non-word
character. -/
def boundaryAfter : Str → Bool
  | [] => true
  | c :: _ => !isWordChar c

/-- A product pattern `/\b<alpha>\s?<digits>(a?)\b/i`. -/
structure ProdPat where
  alpha : Str
  digits : Str
  optA : Bool
  product : String

/-- Match a product pattern at the current position (the letter prefix, an
optional single whitespace, the digits, for `DL380` an optional trailing
`a`, then a word boundary).  The optional `a` is greedy: if taking it fails
the boundary check, the position right after the digits starts with `a`, a
word character, so backtracking cannot succeed either. -/
def prodMatchHere (pr : ProdPat) (s : Str) : Bool :=
  match stripPre pr.alpha s with
  | none => false
  | some s1 =>
    let s2 := match s1 with
      | c :: rest => if c.isWhitespace then rest else s1
      | [] => s1
    match stripPre pr.digits s2 with
    | none => false
    | some s3 =>
      if pr.optA then
        match s3 with
        | 'a' :: s4 => boundaryAfter s4
        | _ => boundaryAfter s3
      else boundaryAfter s3

def prodScan (pr : ProdPat) : Option Char → Str → Bool
  | prev, s =>
    (boundaryBefore prev && prodMatchHere pr s) ||
      match s with
      | [] => false
      | c :: rest => prodScan pr (some c) rest

/-- `pattern.test(lowerText)` for a product pattern. -/
def prodTest (pr : ProdPat) (t : Str) : Bool := prodScan pr none t

/-- `SmartRouter.productPatterns`, in source order. -/
def productPatterns : List ProdPat :=
  [⟨"dl".toList, "380".toList, true, "DL380"⟩,
   ⟨"dl".toList, "384".toList, false, "DL384"⟩,
   ⟨"dl".toList, "360".toList, false, "DL360"⟩,
   ⟨"dl".toList, "20".toList, false, "DL20"⟩,
   ⟨"ml".toList, "350".toList, false, "ML350"⟩,
   ⟨"ml".toList, "30".toList, false, "ML30"⟩,
   ⟨"dl".toList, "580".toList, false, "DL580"⟩]

/-- The OR filter built on a product match: the product itself, the
`'all'` product, or membership in `referenced_products`. -/
def prodFilter (p : String) : Filt :=
  orF [leafF [("product", .eq (.s p))],
       leafF [("product", .eq (.s "all"))],
       leafF [("referenced_products", .isIn [.s p])]]

/-- Match the word-bounded literal `w` (`/\bw\b/`, where `w` starts and
ends with word characters) somewhere in the text. -/
def wbScan (w : Str) : Option Char → Str → Bool
  | prev, s =>
    (boundaryBefore prev &&
      (match stripPre w s with
       | some rest => boundaryAfter rest
       | none => false)) ||
      match s with
      | [] => false
      | c :: rest => wbScan w (some c) rest

def wordBounded (t w : Str) : Bool := wbScan w none t

/-- `SmartRouter.categoryPatterns`: alternation of word-bounded literals,
with the mapped category. -/
def categoryPatterns : List (List Str × String) :=
  [(["price".toList, "cost".toList, "pricing".toList], "pricing"),
   (["spec".toList, "specification".toList], "specs"),
   (["performance".toList, "benchmark".toList], "performance"),
   (["virtualization".toList, "vmware".toList, "kvm".toList, "hypervisor".toList],
     "virtualization"),
   (["management".toList], "management"),
   (["case study".toList], "customer-case-study"),
   (["ai inference".toList, "model benchmark".toList], "ai-inference")]

/-- `SmartRouter.categorySynonyms`. -/
def categorySynonyms : List (String × List String) :=
  [("pricing", ["pricing", "price", "cost", "tco", "total cost", "roi"]),
   ("specs", ["specs", "specifications", "technical specs", "datasheet", "configuration"]),
   ("performance", ["performance", "benchmark", "speed", "throughput", "latency"]),
   ("virtualization",
     ["virtualization", "vmware", "vsphere", "hypervisor", "vmware alternative",
      "kvm", "virtual machine"]),
   ("management",
     ["management", "oneview", "ilo", "compute ops", "ops management", "remote management"]),
   ("customer-case-study",
     ["customer case", "case study", "success story", "reference", "customer proof"]),
   ("ai-inference",
     ["ai inference", "ai", "ml", "machine learning", "inference", "gpu acceleration"])]

/-- `SmartRouter.normalizeTerm`: trim and lowercase (the two commute). -/
def normalizeTerm (term : String) : String := String.mk (strNorm term.toList)

/-- `SmartRouter.textContainsSynonym`: substring containment for multi-word
terms, word-bounded match for single words. -/
def textContainsSynonym (t : Str) (term : String) : Bool :=
  let normalized := normalizeTerm term
  if normalized.isEmpty then false
  else if normalized.toList.contains ' ' then strIncludes t normalized.toList
  else wordBounded t normalized.toList

/-- Append if not already present: one step of `Set` insertion or of the
`pushClause` de-duplication. -/
def addUnique [BEq α] (l : List α) (x : α) : List α :=
  if l.contains x then l else l ++ [x]

/-- The nine clause shapes `pushClause` emits per synonym term. -/
def clausesFor (term : String) : List (String × FClause) :=
  [("category", .eq (.s term)), ("document_type", .eq (.s term)),
   ("document_id", .eq (.s term)), ("topics", .isIn [.s term]),
   ("referenced_products", .isIn [.s term]), ("key_features", .isIn [.s term]),
   ("use_cases", .isIn [.s term]), ("search_keywords", .isIn [.s term]),
   ("tags", .isIn [.s term])]

/-- `SmartRouter.buildFlexibleCategoryFilter`: expand the category with its
synonyms (a `Set`, insertion-ordered, de-duplicated), emit the nine clause
shapes per term with de-duplication, wrap in `$or`. -/
def buildFlexibleCategoryFilter (categoryKeyword : String) : Option Filt :=
  let normalizedCategory := normalizeTerm categoryKeyword
  if normalizedCategory.isEmpty then none
  else
    let extra :=
      ((categorySynonyms.find? (fun p => p.1 = normalizedCategory)).map
        (fun p => p.2)).getD []
    let synonyms := extra.foldl
      (fun acc syn =>
        let term := normalizeTerm syn
        if term.isEmpty then acc else addUnique acc term)
      [normalizedCategory]
    let clauses := synonyms.foldl
      (fun acc term => (clausesFor term).foldl addUnique acc) []
    if clauses.isEmpty then none
    else some (orF (clauses.map (fun c => leafF [c])))

/-- The case-study/success-story phrase pattern
`/case stud|success stor|customer success|customer stor|customer case|customer proof|who uses/i`
applied to the lowercased text. -/
def caseStudyAlts : List Str :=
  ["case stud".toList, "success stor".toList, "customer success".toList,
   "customer stor".toList, "customer case".toList, "customer proof".toList,
   "who uses".toList]

def caseStudyTest (t : Str) : Bool := caseStudyAlts.any (fun p => strIncludes t p)

/-- The two bounded caches of a `SmartRouter` instance. -/
structure RouterState where
  classificationCache : List (Str × ClassResult) := []
  filterCache : List (Str × Option Filt) := []

/-- `SmartRouter._cacheResult`. -/
def cacheResult (st : RouterState) (k : Str) (v : ClassResult) : RouterState :=
  { st with classificationCache := cachePut st.classificationCache k v }

/-- `SmartRouter._cacheFilter`. -/
def cacheFilter (st : RouterState) (k : Str) (v : Option Filt) : RouterState :=
  { st with filterCache := cachePut st.filterCache k v }

/-- First set of question patterns (`questionPatterns`), each an unanchored
alternation, modelled as substring alternatives. -/
def questionAlts : List (List Str) :=
  [["what is".toList, "what are".toList, "what can".toList, "what does".toList,
    "what do".toList],
   ["how many".toList, "how much".toList, "how does".toList, "how do".toList,
    "how can".toList],
   ["which one".toList, "which model".toList, "which server".toList],
   ["tell me about".toList],
   ["can you".toList, "can it".toList, "can they".toList],
   ["does it".toList, "does this".toList, "does that".toList]]

/-- The broader second pattern
`/tell me|what about|explain|describe|i want|i need|help me|can you|problem with|issue with|sales in/i`. -/
def broadAlts : List Str :=
  ["tell me".toList, "what about".toList, "explain".toList, "describe".toList,
   "i want".toList, "i need".toList, "help me".toList, "can you".toList,
   "problem with".toList, "issue with".toList, "sales in".toList]

/-- `SmartRouter.classifyQuestion`: normalized-key cache, then the fast
paths in source order.  Returns the classification and the updated state. -/
def classifyQuestion (st : RouterState) (text : Str) : ClassResult × RouterState :=
  let lowerText := strNorm text
  let textLength := lowerText.length
  match jsGet st.classificationCache lowerText with
  | some r => (r, st)
  | none =>
    if textLength < 8 || greetingAlts.contains lowerText then
      let result : ClassResult :=
        { type := "simple_conversation", confidence := conf 95,
          reason := "Very short greeting" }
      (result, cacheResult st lowerText result)
    else
      match sortedKeywords.find? (fun k => strIncludes lowerText k) with
      | some keyword =>
        let route := jsGet keywordRouteList keyword
        let result : ClassResult :=
          { type := "route", confidence := conf 96,
            reason := "Matched: " ++ ((route.map (fun r => r.ruleName)).getD ""),
            route := route }
        (result, cacheResult st lowerText result)
      | none =>
        if (wordsOf lowerText).any (fun w => kbKeywords.contains w) then
          let result : ClassResult :=
            { type := "knowledge_base", confidence := conf 90,
              reason := "Contains technical/product keywords" }
          (result, cacheResult st lowerText result)
        else if 8 < textLength &&
            questionAlts.any (fun alts => alts.any (fun a => strIncludes lowerText a)) then
          let result : ClassResult :=
            { type := "intelligent_response", confidence := conf 80,
              reason := "Question that needs intelligent response" }
          (result, cacheResult st lowerText result)
        else if 8 < textLength &&
            broadAlts.any (fun a => strIncludes lowerText a) then
          let result : ClassResult :=
            { type := "intelligent_response", confidence := conf 75,
              reason := "Requires intelligent response" }
          (result, cacheResult st lowerText result)
        else if 15 < textLength then
          let result : ClassResult :=
            { type := "intelligent_response", confidence := conf 65,
              reason := "Extended text needs intelligent handling" }
          (result, cacheResult st lowerText result)
        else
          let result : ClassResult :=
            { type := "simple_conversation", confidence := conf 60,
              reason := "Simple conversation" }
          (result, cacheResult st lowerText result)

/-- `SmartRouter.extractProductFilter`: lowercased (not trimmed) key cache,
case-study override, product patterns, category patterns, category
synonyms.  Returns the filter and the updated state. -/
def extractProductFilter (st : RouterState) (text : Str) : Option Filt × RouterState :=
  let lowerText := toLowerStr text
  match jsGet st.filterCache lowerText with
  | some f => (f, st)
  | none =>
    if caseStudyTest lowerText then
      (none, cacheFilter st lowerText none)
    else
      match productPatterns.find? (fun pr => prodTest pr lowerText) with
      | some pr =>
        let filter := some (prodFilter pr.product)
        (filter, cacheFilter st lowerText filter)
      | none =>
        match categoryPatterns.find?
            (fun cp => cp.1.any (fun w => wordBounded lowerText w)) with
        | some cp =>
          let filter := buildFlexibleCategoryFilter cp.2
          (filter, cacheFilter st lowerText filter)
        | none =>
          match categorySynonyms.find?
              (fun cs => cs.2.any (fun term => textContainsSynonym lowerText term)) with
          | some cs =>
            let filter := buildFlexibleCategoryFilter cs.1
            (filter, cacheFilter st lowerText filter)
          | none => (none, cacheFilter st lowerText none)

/-! ## OptimizedRAGEngine

Retrieval, answer generation and query resolution.  The external
collaborators are oracles: the vector index is a function from the
requested neighbour count to a ranked candidate list, and the completion
provider is an `Except`-valued function (an `error` models a throw).  The
embedding resolution step only produces the vector handed to the index, so
it is absorbed into the index oracle; current time is the `now`
parameter. -/

/-- One accepted search result `{ id: metadata.id, score, metadata }`. -/
structure RagMatch where
  docId : Option MVal
  score : ℚ
  metadata : Metadata

/-- Options of `search`/`query`; source defaults
`{ topK = 3, filter = null, minScore = 0.45, searchK = topK * 3 }`. -/
structure SearchOpts where
  topK : Nat := 3
  filter : Option Filt := none
  minScore : ℚ := conf 45
  searchK : Nat := topK * 3

instance : BEq SearchOpts :=
  ⟨fun a b => a.topK == b.topK && a.filter == b.filter &&
    a.minScore == b.minScore && a.searchK == b.searchK⟩

/-- Composite retrieval-cache key
`getCacheKey(query, filter, { topK, minScore, searchK })`. -/
abbrev RetKey := Str × Option Filt × Nat × ℚ × Nat

/-- Composite response-cache key
`getCacheKey(userQuery, filter, { topK: options.topK, minScore: options.minScore })`. -/
abbrev RespKey := Str × Option Filt × Nat × ℚ

/-- Retrieval cache entry `{ results, timestamp }`. -/
structure RetEntry where
  results : List RagMatch
  timestamp : Nat

/-- An answer `{ answer, sources, confidence }` (`toFixed(3)` display
formatting of the source scores is not modelled). -/
structure Answer where
  answer : Str
  sources : List (Option MVal × ℚ)
  confidence : ℚ

/-- Response cache entry `{ ...answer, timestamp }`. -/
structure RespEntry where
  answer : Answer
  timestamp : Nat

/-- What `query` returns: an answer payload, its `cached` marker, and the
distinguished `noResults` marker (`latency` is wall-clock time and is not
modelled). -/
structure QueryResult where
  answer : Str
  sources : List (Option MVal × ℚ)
  confidence : ℚ
  noResults : Bool := false
  cached : Bool := false

/-- `pruneCache(map, ttl)`: drop entries with `now - timestamp > ttl`. -/
def prunedCache (m : List (K × E)) (ts : E → Nat) (ttl now : Nat) : List (K × E) :=
  m.filter (fun p => !(ttl < now - ts p.2))

/-- The source's `const metadata = this.vectorMetadata[id]` (the candidate
loop only reads it after the range guard, so the default is unreachable). -/
def metaAt (meta : List Metadata) (id : Int) : Metadata := meta.getD id.toNat []

/-- The accepted entry `{ id: metadata.id, score, metadata }`. -/
def mkMatch (meta : List Metadata) (id : Int) (score : ℚ) : RagMatch :=
  ⟨mdGet (metaAt meta id) "id", score, metaAt meta id⟩

/-- The candidate loop of `OptimizedRAGEngine.search`: walk the index
candidates in order, skip out-of-range ids, scores below `minScore` and
metadata failing the filter, accept the rest, and stop right after the
accepted list reaches `topK`. -/
def scanCands (meta : List Metadata) (filter : Option Filt) (minScore : ℚ)
    (topK : Nat) : List (Int × ℚ) → List RagMatch → List RagMatch
  | [], acc => acc
  | (id, score) :: rest, acc =>
    if id < 0 ∨ (meta.length : Int) ≤ id then
      scanCands meta filter minScore topK rest acc
    else if score < minScore then
      scanCands meta filter minScore topK rest acc
    else if !(matchesFilter (metaAt meta id) filter) then
      scanCands meta filter minScore topK rest acc
    else if topK ≤ (acc ++ [mkMatch meta id score]).length then
      acc ++ [mkMatch meta id score]
    else scanCands meta filter minScore topK rest (acc ++ [mkMatch meta id score])

/-- Both engine caches. -/
structure EngineState where
  responseCache : List (RespKey × RespEntry) := []
  retrievalCache : List (RetKey × RetEntry) := []

/-- `OptimizedRAGEngine.search`: prune the retrieval cache, return a hit,
else ask the index for `min(searchK, corpusSize)` candidates, scan them,
and cache the accepted list (empty or not) under the composite key with
the current timestamp. -/
def search (st : EngineState) (now ttl : Nat) (faiss : Nat → List (Int × ℚ))
    (meta : List Metadata) (q : Str) (opts : SearchOpts) :
    List RagMatch × EngineState :=
  let key : RetKey := (q, opts.filter, opts.topK, opts.minScore, opts.searchK)
  let rc := prunedCache st.retrievalCache (fun e => e.timestamp) ttl now
  match jsGet rc key with
  | some e => (e.results, { st with retrievalCache := rc })
  | none =>
    let cands := faiss (min opts.searchK meta.length)
    let accepted := scanCands meta opts.filter opts.minScore opts.topK cands []
    (accepted, { st with retrievalCache := jsSet rc key ⟨accepted, now⟩ })

/-- The `text` field of a metadata record, used for prompt assembly. -/
def mdText (md : Metadata) : Str :=
  match mdGet md "text" with
  | some (.prim (.s str)) => str.toList
  | _ => []

/-- Join with a separator (JavaScript `Array.prototype.join`). -/
def joinStr (sep : Str) (l : List Str) : Str := (l.intersperse sep).flatten

/-- The fixed part of the system prompt, up to the interpolated context. -/
def sysPromptPrefix : Str :=
  ("You are an HPE ProLiant expert. Provide accurate, helpful answers based ONLY on the context below.\n\nCRITICAL RULES:\n- Always complete your sentences fully\n- Aim for 3-4 complete sentences (70-100 words)\n- Be conversational and natural for voice delivery\n- Focus on the most important information first\n\nContext:\n").toList

/-- Fallback text when the completion choice is empty. -/
def fallbackAnswer : Str := "I could not assemble a confident answer this time.".toList

/-- The prompt context: first 400 characters of the top-2 results' text,
joined with blank lines. -/
def promptContext (searchResults : List RagMatch) : Str :=
  joinStr "\n\n".toList
    ((searchResults.take 2).map (fun r => (mdText r.metadata).take 400))

/-- The source's `ensureCompleteSentence(choice || fallback)`. -/
def finalizeChoice (choice : Str) : Str :=
  ensureCompleteSentence (if choice.isEmpty then fallbackAnswer else choice)

/-- Sources list `{ source, score }` attached to an answer. -/
def answerSources (searchResults : List RagMatch) : List (Option MVal × ℚ) :=
  searchResults.map (fun r => (mdGet r.metadata "source", r.score))

/-- `searchResults[0]?.score || 0`. -/
def answerConfidence : List RagMatch → ℚ
  | [] => 0
  | r :: _ => r.score

/-- `OptimizedRAGEngine.generateAnswer` (batch path; the streaming path
assembles the same prompt, concatenates the streamed tokens and applies the
same finalizer).  `complete` receives the system prompt and the user
message; an `error` is a throw of the completion provider, which
`generateAnswer` does not catch. -/
def generateAnswer (complete : Str → Str → Except Unit Str) (query : Str)
    (searchResults : List RagMatch) : Except Unit Answer :=
  if searchResults.isEmpty then
    .ok ⟨"I don't have enough information to answer that question accurately.".toList,
         [], 0⟩
  else
    match complete (sysPromptPrefix ++ promptContext searchResults) query with
    | .error e => .error e
    | .ok choice =>
      .ok ⟨finalizeChoice choice, answerSources searchResults,
           answerConfidence searchResults⟩

/-- The distinguished no-results outcome of `query`. -/
def noResultsRes : QueryResult :=
  { answer := ("I don’t have that information right now. For more details, please contact the HPE support team or your account representative directly.").toList,
    sources := [], confidence := 0, noResults := true }

/-- Tail of `query` once the search results are settled: the no-results
outcome for an empty list, otherwise `generateAnswer` (whose throw
propagates) and, on success, the response-cache write. -/
def finishQuery (rc : List (RespKey × RespEntry)) (key : RespKey) (now : Nat)
    (complete : Str → Str → Except Unit Str) (q : Str) (sr : List RagMatch)
    (calls : List SearchOpts) :
    Except Unit QueryResult × List (RespKey × RespEntry) × List SearchOpts :=
  if sr.isEmpty then (.ok noResultsRes, rc, calls)
  else
    match generateAnswer complete q sr with
    | .error e => (.error e, rc, calls)
    | .ok a =>
      (.ok { answer := a.answer, sources := a.sources, confidence := a.confidence },
       jsSet rc key ⟨a, now⟩, calls)

/-- `OptimizedRAGEngine.query` with `search` abstracted as an oracle from
options to a thrown error or a result list (a throw inside `try/catch` is
degraded to the empty list).  Returns the outcome, the updated response
cache, and the sequence of `search` calls performed. -/
def query (respCache : List (RespKey × RespEntry)) (now ttl : Nat)
    (searchFn : SearchOpts → Except Unit (List RagMatch))
    (complete : Str → Str → Except Unit Str)
    (userQuery : Str) (opts : SearchOpts) :
    Except Unit QueryResult × List (RespKey × RespEntry) × List SearchOpts :=
  let cacheKey : RespKey := (userQuery, opts.filter, opts.topK, opts.minScore)
  let rc := prunedCache respCache (fun e => e.timestamp) ttl now
  match jsGet rc cacheKey with
  | some e =>
    (.ok { answer := e.answer.answer, sources := e.answer.sources,
           confidence := e.answer.confidence, cached := true }, rc, [])
  | none =>
    let sr1 := match searchFn opts with
      | .ok l => l
      | .error _ => []
    if sr1.isEmpty && opts.filter.isSome then
      let optsNF := { opts with filter := none }
      let sr2 := match searchFn optsNF with
        | .ok l => l
        | .error _ => []
      finishQuery rc cacheKey now complete userQuery sr2 [opts, optsNF]
    else finishQuery rc cacheKey now complete userQuery sr1 [opts]

/-! ## Shared cache lemmas -/

theorem find_append_single [BEq K] [LawfulBEq K] (m : List (K × V)) (k : K) (v : V)
    (h : ∀ x ∈ m, (x.1 == k) = false) :
    (m ++ [(k, v)]).find? (fun p => p.1 == k) = some (k, v) := by
  induction m with
  | nil => simp [List.find?]
  | cons p t ih =>
    have hp : (p.1 == k) = false := h p (by simp)
    rw [List.cons_append, List.find?_cons_of_neg _ (by simp [hp])]
    exact ih (fun x hx => h x (by simp [hx]))

theorem find_replace [BEq K] [LawfulBEq K] (m : List (K × V)) (k : K) (v : V)
    (h : m.any (fun p => p.1 == k) = true) :
    (m.map (fun p => if p.1 == k then (k, v) else p)).find? (fun p => p.1 == k) =
      some (k, v) := by
  induction m with
  | nil => simp at h
  | cons p t ih =>
    by_cases hp : (p.1 == k) = true
    · rw [List.map_cons, if_pos hp, List.find?_cons_of_pos _ (by simp)]
    · have ht : t.any (fun q => q.1 == k) = true := by
        rcases List.any_eq_true.mp h with ⟨x, hx, hxk⟩
        cases List.mem_cons.mp hx with
        | inl he =>
          subst he
          exact absurd hxk hp
        | inr ht' => exact List.any_eq_true.mpr ⟨x, ht', hxk⟩
      rw [List.map_cons, if_neg hp, List.find?_cons_of_neg _ (by simpa using hp)]
      exact ih ht

theorem jsGet_jsSet_self [BEq K] [LawfulBEq K] (m : List (K × V)) (k : K) (v : V) :
    jsGet (jsSet m k v) k = some v := by
  unfold jsGet jsSet
  by_cases h : m.any (fun p => p.1 == k) = true
  · rw [if_pos h, find_replace m k v h]
    rfl
  · rw [if_neg h]
    have hall : ∀ x ∈ m, (x.1 == k) = false := by
      intro x hx
      by_contra hx'
      exact h (List.any_eq_true.mpr ⟨x, hx, by simpa using hx'⟩)
    rw [find_append_single m k v hall]
    rfl

theorem jsGet_cachePut_self [BEq K] [LawfulBEq K] (m : List (K × V)) (k : K) (v : V) :
    jsGet (cachePut m k v) k = some v := by
  unfold cachePut
  exact jsGet_jsSet_self _ k v

/-! ## C10 — edge shapes of the filter language -/

/-- C10: for every metadata record, the empty filter object `{}` matches
everything (it imposes no clauses), while `{$or: []}` matches nothing (an
empty disjunction). -/
theorem matchesFilter_edge_shapes (md : Metadata) :
    matchesFilter md (some (Filt.node none [])) = true ∧
    matchesFilter md (some (Filt.node (some []) [])) = false := by
  constructor
  · simp [matchesFilter, filtMatches]
  · simp [matchesFilter, filtMatches, filtAnyMatches]

/-! ## C4 — `ensureCompleteSentence` on the spec's two examples -/

/-- C4 counterexample: `ensureCompleteSentence "Fast servers. Really f"`
does not truncate to `"Fast servers."`.  The last terminator sits at index
12, and 12 is not past 60% of the length 22 (the threshold is 13.2), so
the function appends a period instead of truncating. -/
theorem ensureCompleteSentence_truncation_counterexample :
    ensureCompleteSentence "Fast servers. Really f".toList ≠
      "Fast servers.".toList ∧
    ensureCompleteSentence "Fast servers. Really f".toList =
      "Fast servers. Really f.".toList := by
  constructor
  · decide
  · decide

/-- C4 amended: the first example gains exactly one trailing period; the
second example's cut point (index 12 of 22) is not past 60% of the length,
so the text is kept whole and a single period is appended rather than
truncating to `"Fast servers."`. -/
theorem ensureCompleteSentence_examples :
    ensureCompleteSentence "The DL380 supports up to 32 DIMMs".toList =
      "The DL380 supports up to 32 DIMMs.".toList ∧
    ensureCompleteSentence "Fast servers. Really f".toList =
      "Fast servers. Really f.".toList := by
  constructor
  · decide
  · decide

/-! ## C9 — unknown metadata fields fail closed -/

/-- C9: a leaf clause naming a field absent from the metadata record
evaluates to false without any exception: the equality clause fails because
`undefined` differs from the expected scalar, the `$in` clause fails against
the empty-array default, and hence a conjunction filter containing such a
clause never matches. -/
theorem matchesFilter_unknown_field_fail_closed (md : Metadata) (k : String)
    (h : mdGet md k = none) :
    (∀ v, clauseMatches md k (.eq v) = false) ∧
    (∀ vs, clauseMatches md k (.isIn vs) = false) ∧
    (∀ (fields : List (String × FClause)) (c : FClause),
        (k, c) ∈ fields → filtMatches md (.node none fields) = false) := by
  refine ⟨?_, ?_, ?_⟩
  · intro v
    simp [clauseMatches, h]
  · intro vs
    simp [clauseMatches, h]
  · intro fields c hmem
    have hc : clauseMatches md k c = false := by
      cases c with
      | eq v => simp [clauseMatches, h]
      | isIn vs => simp [clauseMatches, h]
    have : ¬(filtMatches md (.node none fields) = true) := by
      intro hall
      rw [show filtMatches md (.node none fields) =
            fields.all (fun kc => clauseMatches md kc.1 kc.2) from rfl] at hall
      have := List.all_eq_true.mp hall (k, c) hmem
      simp [hc] at this
    simpa using this

/-- Concrete record for the C9 witness. -/
def mdProduct : Metadata := [("product", .prim (.s "DL380"))]

theorem matchesFilter_unknown_field_witness :
    mdGet mdProduct "color" = none ∧
    clauseMatches mdProduct "color" (.eq (.s "red")) = false ∧
    clauseMatches mdProduct "color" (.isIn [.s "red"]) = false ∧
    filtMatches mdProduct (.node none [("color", .eq (.s "red"))]) = false :=
  ⟨rfl,
   (matchesFilter_unknown_field_fail_closed mdProduct "color" rfl).1 _,
   (matchesFilter_unknown_field_fail_closed mdProduct "color" rfl).2.1 _,
   (matchesFilter_unknown_field_fail_closed mdProduct "color" rfl).2.2
     [("color", .eq (.s "red"))] (.eq (.s "red")) (by simp)⟩

/-! ## C5 — the case-study override short-circuits filter synthesis -/

/-- C5: any text whose lowercased form matches the case-study/success-story
pattern makes `extractProductFilter` return `null` and cache `null`,
regardless of the product patterns, category patterns and category synonyms
it would otherwise match — the check precedes every later step. -/
theorem extractProductFilter_case_study_override (st : RouterState) (t : Str)
    (hmiss : jsGet st.filterCache (toLowerStr t) = none)
    (hcs : caseStudyTest (toLowerStr t) = true) :
    (extractProductFilter st t).1 = none ∧
    (extractProductFilter st t).2 = cacheFilter st (toLowerStr t) none := by
  constructor <;> simp [extractProductFilter, hmiss, hcs]

theorem extractProductFilter_case_study_witness :
    jsGet (RouterState.mk [] []).filterCache (toLowerStr "dl380 case study".toList) =
      none ∧
    caseStudyTest (toLowerStr "dl380 case study".toList) = true ∧
    prodTest (ProdPat.mk "dl".toList "380".toList true "DL380")
      (toLowerStr "dl380 case study".toList) = true ∧
    (extractProductFilter ⟨[], []⟩ "dl380 case study".toList).1 = none :=
  ⟨rfl, by decide, by decide,
   (extractProductFilter_case_study_override ⟨[], []⟩ _ rfl (by decide)).1⟩

/-! ## C7 — filter-cache keys are lowercased but not trimmed -/

/-- C7 counterexample: after `extractProductFilter " dl380 "` the filter
cache holds the computed filter under the untrimmed lowercase key
`" dl380 "`, and holds nothing under the trimmed key `"dl380"` the claim
names. -/
theorem extractProductFilter_cache_key_counterexample :
    (jsGet ((extractProductFilter ⟨[], []⟩ " dl380 ".toList).2.filterCache)
        (trimStr (toLowerStr " dl380 ".toList))).isNone = true ∧
    (jsGet ((extractProductFilter ⟨[], []⟩ " dl380 ".toList).2.filterCache)
        (toLowerStr " dl380 ".toList)).isSome = true := by
  constructor
  · decide
  · decide

/-- C7 amended: `extractProductFilter` caches its computed result under
`text.toLowerCase()` without trimming, so two inputs differing only in
surrounding whitespace get separate filter-cache entries (the
lowercase-and-trim key scheme holds for the classification cache, not for
the filter cache). -/
theorem extractProductFilter_cache_key_lowercase (st : RouterState) (t : Str)
    (hmiss : jsGet st.filterCache (toLowerStr t) = none) :
    jsGet ((extractProductFilter st t).2.filterCache) (toLowerStr t) =
      some ((extractProductFilter st t).1) := by
  simp only [extractProductFilter, hmiss]
  repeat' split
  all_goals simp [cacheFilter, jsGet_cachePut_self]

theorem extractProductFilter_cache_key_witness :
    jsGet (RouterState.mk [] []).filterCache (toLowerStr " Spec ".toList) = none ∧
    jsGet ((extractProductFilter ⟨[], []⟩ " Spec ".toList).2.filterCache)
        (toLowerStr " Spec ".toList) =
      some ((extractProductFilter ⟨[], []⟩ " Spec ".toList).1) :=
  ⟨rfl, extractProductFilter_cache_key_lowercase ⟨[], []⟩ " Spec ".toList rfl⟩

/-! ## C8 — cache capacity and oldest-first eviction -/

theorem jsSet_length_le [BEq K] (m : List (K × V)) (k : K) (v : V) :
    (jsSet m k v).length ≤ m.length + 1 := by
  unfold jsSet
  split
  · simp
  · simp

theorem cachePut_length_le [BEq K] [LawfulBEq K] (m : List (K × V)) (k : K) (v : V)
    (h : m.length ≤ CACHE_SIZE) : (cachePut m k v).length ≤ CACHE_SIZE := by
  unfold cachePut
  by_cases hfull : CACHE_SIZE ≤ m.length
  · rw [if_pos hfull]
    cases m with
    | nil => simp [CACHE_SIZE] at hfull
    | cons p t =>
      have hlen : t.length + 1 = CACHE_SIZE := by
        have := le_antisymm h hfull
        simpa using this
      have hdel : (jsDelete (p :: t) p.1).length ≤ t.length := by
        unfold jsDelete
        have h1 : List.filter (fun q => !(q.1 == p.1)) (p :: t) =
            List.filter (fun q => !(q.1 == p.1)) t := by
          simp [List.filter_cons]
        rw [h1]
        exact List.length_filter_le _ t
      calc (jsSet (jsDelete (p :: t) p.1) k v).length
          ≤ (jsDelete (p :: t) p.1).length + 1 := jsSet_length_le _ _ _
        _ ≤ t.length + 1 := by omega
        _ = CACHE_SIZE := hlen
  · rw [if_neg hfull]
    calc (jsSet m k v).length ≤ m.length + 1 := jsSet_length_le _ _ _
      _ ≤ CACHE_SIZE := by omega

/-- Insertion of a key absent from the map appends. -/
theorem jsSet_fresh [BEq K] (m : List (K × V)) (k : K) (v : V)
    (hfresh : ∀ x ∈ m, (x.1 == k) = false) : jsSet m k v = m ++ [(k, v)] := by
  unfold jsSet
  have hany : m.any (fun p => p.1 == k) = false := by
    rw [List.any_eq_false]
    intro x hx
    simp [hfresh x hx]
  rw [if_neg (by simp [hany])]

/-- Fresh-key insertion below capacity is a plain append. -/
theorem cachePut_fresh_small [BEq K] (m : List (K × V)) (k : K) (v : V)
    (hlen : m.length < CACHE_SIZE) (hfresh : ∀ x ∈ m, (x.1 == k) = false) :
    cachePut m k v = m ++ [(k, v)] := by
  unfold cachePut
  rw [if_neg (not_le.mpr hlen)]
  exact jsSet_fresh m k v hfresh

/-- Folding distinct-key inserts while total size stays within capacity
appends them all in order. -/
theorem cachePut_fold_small [BEq K] (l : List (K × V)) :
    ∀ (m : List (K × V)),
      m.length + l.length ≤ CACHE_SIZE →
      (m.map (fun p => p.1) ++ l.map (fun p => p.1)).Pairwise
        (fun a b => (a == b) = false) →
      l.foldl (fun acc p => cachePut acc p.1 p.2) m = m ++ l := by
  induction l with
  | nil =>
    intro m _ _
    simp
  | cons x t ih =>
    intro m hlen hdist
    have hfresh : ∀ y ∈ m, (y.1 == x.1) = false := by
      intro y hy
      exact (List.pairwise_append.mp hdist).2.2 y.1 (List.mem_map_of_mem _ hy)
        x.1 (by simp)
    have hstep : cachePut m x.1 x.2 = m ++ [x] := by
      have := cachePut_fresh_small m x.1 x.2
        (by simp only [List.length_cons] at hlen; omega) hfresh
      simpa using this
    rw [List.foldl_cons]
    show List.foldl (fun acc p => cachePut acc p.1 p.2) (cachePut m x.1 x.2) t =
      m ++ x :: t
    rw [hstep]
    have hrec := ih (m ++ [x])
      (by simp only [List.length_append, List.length_cons, List.length_nil] at hlen ⊢
          omega)
      (by
        have heq : (m ++ [x]).map (fun p => p.1) ++ t.map (fun p => p.1) =
            m.map (fun p => p.1) ++ (x :: t).map (fun p => p.1) := by
          simp
        rw [heq]
        exact hdist)
    rw [hrec, List.append_assoc]
    rfl

/-- C8: both router caches keep at most `CACHE_SIZE` entries across
`_cacheResult` / `_cacheFilter`, and folding 101 inserts with pairwise
distinct keys into an empty cache leaves exactly the last 100 entries —
precisely the first-inserted key is evicted. -/
theorem router_cache_capacity :
    (∀ (st : RouterState) (k : Str) (v : ClassResult),
        st.classificationCache.length ≤ CACHE_SIZE →
        (cacheResult st k v).classificationCache.length ≤ CACHE_SIZE) ∧
    (∀ (st : RouterState) (k : Str) (v : Option Filt),
        st.filterCache.length ≤ CACHE_SIZE →
        (cacheFilter st k v).filterCache.length ≤ CACHE_SIZE) ∧
    (∀ (V : Type) (l : List (Str × V)),
        l.length = CACHE_SIZE + 1 →
        (l.map (fun p => p.1)).Pairwise (fun a b => (a == b) = false) →
        l.foldl (fun acc p => cachePut acc p.1 p.2) [] = l.drop 1) := by
  refine ⟨?_, ?_, ?_⟩
  · intro st k v h
    exact cachePut_length_le _ _ _ h
  · intro st k v h
    exact cachePut_length_le _ _ _ h
  · intro V l hlen hdist
    cases l with
    | nil => simp [CACHE_SIZE] at hlen
    | cons x t =>
      have htlen : t.length = CACHE_SIZE := by simpa using hlen
      have hne : t ≠ [] := by
        intro h
        rw [h] at htlen
        simp [CACHE_SIZE] at htlen
      obtain ⟨t', z, hts⟩ : ∃ t' z, t = t' ++ [z] :=
        ⟨t.dropLast, t.getLast hne, (List.dropLast_append_getLast hne).symm⟩
      subst hts
      have ht'len : t'.length + 1 = CACHE_SIZE := by simpa using htlen
      have hdistm : ((x :: (t' ++ [z])).map (fun p => p.1)).Pairwise
          (fun a b => (a == b) = false) := hdist
      rw [List.map_cons, List.pairwise_cons] at hdistm
      obtain ⟨hhead, htail⟩ := hdistm
      rw [List.map_append] at htail
      have htail' := List.pairwise_append.mp htail
      -- the first insert into the empty cache
      have h0 : cachePut ([] : List (Str × V)) x.1 x.2 = [x] := by
        have := cachePut_fresh_small ([] : List (Str × V)) x.1 x.2
          (by simp [CACHE_SIZE]) (by intro y hy; simp at hy)
        simpa using this
      rw [List.foldl_cons]
      show List.foldl (fun acc p => cachePut acc p.1 p.2)
        (cachePut [] x.1 x.2) (t' ++ [z]) = (x :: (t' ++ [z])).drop 1
      rw [h0, List.foldl_append]
      -- the middle inserts keep appending
      have hmid : List.foldl (fun acc p => cachePut acc p.1 p.2) [x] t' =
          [x] ++ t' := by
        apply cachePut_fold_small
        · simp only [List.length_singleton]
          omega
        · have hsub : (([x].map (fun p => p.1)) ++ t'.map (fun p => p.1)).Sublist
              (x.1 :: ((t' ++ [z]).map (fun p => p.1))) := by
            simp only [List.map_singleton, List.singleton_append, List.map_append]
            exact (List.sublist_append_left _ _).cons₂ x.1
          exact List.Pairwise.sublist hsub hdist
      rw [hmid]
      -- the final insert evicts the first key
      have hfull : CACHE_SIZE ≤ ([x] ++ t').length := by
        simp only [List.singleton_append, List.length_cons]
        omega
      have hdel : jsDelete ([x] ++ t') x.1 = t' := by
        unfold jsDelete
        rw [List.singleton_append]
        have h1 : List.filter (fun q => !(q.1 == x.1)) (x :: t') =
            List.filter (fun q => !(q.1 == x.1)) t' := by
          simp [List.filter_cons]
        rw [h1]
        apply List.filter_eq_self.mpr
        intro y hy
        have hy1 : y.1 ∈ List.map (fun p => p.1) (t' ++ [z]) := by
          rw [List.map_append]
          exact List.mem_append_left _ (List.mem_map_of_mem _ hy)
        have hx : (x.1 == y.1) = false := hhead y.1 hy1
        have hne' : x.1 ≠ y.1 := by simpa using hx
        simp only [Bool.not_eq_true', beq_eq_false_iff_ne]
        exact hne'.symm
      have hzfresh : ∀ y ∈ t', (y.1 == z.1) = false := by
        intro y hy
        exact htail'.2.2 y.1 (List.mem_map_of_mem _ hy) z.1 (by simp)
      show cachePut ([x] ++ t') z.1 z.2 = (x :: (t' ++ [z])).drop 1
      unfold cachePut
      rw [if_pos hfull]
      have hfk : jsFirstKey ([x] ++ t') = some x.1 := rfl
      rw [hfk]
      show jsSet (jsDelete ([x] ++ t') x.1) z.1 z.2 = List.drop 1 (x :: (t' ++ [z]))
      rw [hdel, jsSet_fresh t' z.1 z.2 hzfresh]
      simp

/-- 101 cache inserts with pairwise-distinct single-character keys, for the
C8 witness. -/
def capacityEntries : List (Str × Nat) :=
  (List.range (CACHE_SIZE + 1)).map (fun i => ([Char.ofNat (120 + i)], i))

theorem router_cache_capacity_witness :
    (RouterState.mk [] []).classificationCache.length ≤ CACHE_SIZE ∧
    (cacheResult ⟨[], []⟩ "q".toList
        { type := "simple_conversation", confidence := conf 95,
          reason := "Very short greeting" }).classificationCache.length ≤ CACHE_SIZE ∧
    (cacheFilter ⟨[], []⟩ "q".toList none).filterCache.length ≤ CACHE_SIZE ∧
    capacityEntries.length = CACHE_SIZE + 1 ∧
    (capacityEntries.map (fun p => p.1)).Pairwise (fun a b => (a == b) = false) ∧
    capacityEntries.foldl (fun acc p => cachePut acc p.1 p.2) [] =
      capacityEntries.drop 1 :=
  ⟨by decide,
   router_cache_capacity.1 ⟨[], []⟩ _ _ (by decide),
   router_cache_capacity.2.1 ⟨[], []⟩ _ _ (by decide),
   by decide,
   by decide,
   router_cache_capacity.2.2 Nat capacityEntries (by decide) (by decide)⟩

/-! ## C6 — longest-keyword precedence in `classifyQuestion` -/

/-- The sorted keyword table really is in descending length order. -/
theorem sortedKeywords_sorted :
    sortedKeywords.Pairwise (fun a b => b.length ≤ a.length) := by decide

theorem keys_sub_sorted : ∀ k ∈ keywordKeys, k ∈ sortedKeywords := by decide

theorem sorted_sub_keys : ∀ k ∈ sortedKeywords, k ∈ keywordKeys := by decide

/-- On a list sorted by descending length, `find?` returns the unique
longest element satisfying the predicate. -/
theorem find_eq_of_unique_longest {p : Str → Bool} :
    ∀ (l : List Str), l.Pairwise (fun a b => b.length ≤ a.length) →
      ∀ k, k ∈ l → p k = true →
        (∀ x ∈ l, x ≠ k → p x = true → x.length < k.length) →
        l.find? p = some k := by
  intro l
  induction l with
  | nil =>
    intro _ k hk
    simp at hk
  | cons a t ih =>
    intro hpair k hk hpk hmax
    by_cases hak : a = k
    · subst hak
      rw [List.find?_cons_of_pos _ hpk]
    · have hkt : k ∈ t := by
        cases List.mem_cons.mp hk with
        | inl h => exact absurd h.symm hak
        | inr h => exact h
      have hpa : p a = false := by
        by_contra hpa'
        have hpa2 : p a = true := by simpa using hpa'
        have hlt := hmax a (by simp) hak hpa2
        have hge : k.length ≤ a.length := (List.pairwise_cons.mp hpair).1 k hkt
        omega
      rw [List.find?_cons_of_neg _ (by simp [hpa])]
      exact ih (List.pairwise_cons.mp hpair).2 k hkt hpk
        (fun x hx hxk hpx => hmax x (by simp [hx]) hxk hpx)

/-- Every greeting alternative is shorter than 8 characters. -/
theorem greeting_contains_short (s : Str) (h : greetingAlts.contains s = true) :
    s.length < 8 := by
  have hmem : s ∈ greetingAlts := by simpa using h
  simp only [greetingAlts, List.mem_cons, List.not_mem_nil, or_false] at hmem
  rcases hmem with h' | h' | h' | h' | h' | h' | h' <;> subst h' <;> decide

/-- C6 counterexample: `"kvmnews"` contains the registered keywords
`"kvm"` and `"news"` of different lengths, no longer registered keyword,
yet its normalized length 7 takes the greeting fast path, so the
classification is `simple_conversation`, not `route`. -/
theorem classifyQuestion_short_text_counterexample :
    strIncludes (strNorm "kvmnews".toList) "kvm".toList = true ∧
    strIncludes (strNorm "kvmnews".toList) "news".toList = true ∧
    "kvm".toList ∈ keywordKeys ∧
    "news".toList ∈ keywordKeys ∧
    (∀ x ∈ keywordKeys,
        strIncludes (strNorm "kvmnews".toList) x = true → x.length ≤ 4) ∧
    (classifyQuestion ⟨[], []⟩ "kvmnews".toList).1.type = "simple_conversation" := by
  refine ⟨by decide, by decide, by decide, by decide, by decide, by decide⟩

/-- C6 amended: for an uncached query of normalized length at least 8 (so
that the greeting fast path cannot fire) containing a registered keyword
`k` and another shorter one, where every other contained registered keyword
is shorter than `k`, `classifyQuestion` returns the `route` classification
carrying the route mapped from `k`. -/
theorem classifyQuestion_longest_keyword (st : RouterState) (t k : Str)
    (r : RouteInfo)
    (hmiss : jsGet st.classificationCache (strNorm t) = none)
    (hlen : 8 ≤ (strNorm t).length)
    (hroute : jsGet keywordRouteList k = some r)
    (hk : k ∈ keywordKeys)
    (hcont : strIncludes (strNorm t) k = true)
    (hmax : ∀ x ∈ keywordKeys, x ≠ k →
        strIncludes (strNorm t) x = true → x.length < k.length)
    (hk2 : ∃ x ∈ keywordKeys, x ≠ k ∧ strIncludes (strNorm t) x = true) :
    (classifyQuestion st t).1 =
      { type := "route", confidence := conf 96,
        reason := "Matched: " ++ r.ruleName, route := some r } := by
  have hfind : sortedKeywords.find? (fun x => strIncludes (strNorm t) x) = some k := by
    apply find_eq_of_unique_longest sortedKeywords sortedKeywords_sorted k
      (keys_sub_sorted k hk) hcont
    intro x hx hxk hpx
    exact hmax x (sorted_sub_keys x hx) hxk hpx
  have h8 : ¬((strNorm t).length < 8) := by omega
  have hgreet : strNorm t ∉ greetingAlts := by
    intro hm
    have hc' : greetingAlts.contains (strNorm t) = true := by simpa using hm
    have := greeting_contains_short _ hc'
    omega
  simp [classifyQuestion, hmiss, h8, hgreet, hfind, hroute]

theorem classifyQuestion_longest_keyword_witness :
    jsGet (RouterState.mk [] []).classificationCache
        (strNorm "vmware alternative setup".toList) = none ∧
    8 ≤ (strNorm "vmware alternative setup".toList).length ∧
    strIncludes (strNorm "vmware alternative setup".toList)
      "vmware alternative".toList = true ∧
    (classifyQuestion ⟨[], []⟩ "vmware alternative setup".toList).1.type = "route" := by
  refine ⟨rfl, by decide, by decide, ?_⟩
  rw [classifyQuestion_longest_keyword ⟨[], []⟩ _ "vmware alternative".toList _
    rfl (by decide) rfl (by decide) (by decide)
    (by decide)
    ⟨"vmware".toList, by decide, by decide, by decide⟩]

/-! ## C3 — properties of `search` on a retrieval-cache miss -/

/-- Invariants of the candidate loop: starting strictly below `topK` with
an accumulator of accepted results, the final list stays within `topK`,
every element meets the score threshold and the filter, and the appended
scores form a sublist of the candidate scores (so candidate order is
preserved). -/
theorem scanCands_spec (meta : List Metadata) (filter : Option Filt)
    (ms : ℚ) (topK : Nat) :
    ∀ (cands : List (Int × ℚ)) (acc : List RagMatch),
      acc.length < topK →
      (∀ r ∈ acc, ms ≤ r.score ∧ matchesFilter r.metadata filter = true) →
      (scanCands meta filter ms topK cands acc).length ≤ topK ∧
      (∀ r ∈ scanCands meta filter ms topK cands acc,
          ms ≤ r.score ∧ matchesFilter r.metadata filter = true) ∧
      ∃ s, scanCands meta filter ms topK cands acc = acc ++ s ∧
        (s.map (fun r => r.score)).Sublist (cands.map (fun c => c.2)) := by
  intro cands
  induction cands with
  | nil =>
    intro acc hlt hacc
    refine ⟨Nat.le_of_lt hlt, hacc, [], by simp [scanCands], by simp⟩
  | cons c rest ih =>
    intro acc hlt hacc
    obtain ⟨id, score⟩ := c
    show (scanCands meta filter ms topK ((id, score) :: rest) acc).length ≤ topK ∧ _
    rw [scanCands]
    by_cases hrange : id < 0 ∨ (meta.length : Int) ≤ id
    · rw [if_pos hrange]
      obtain ⟨h1, h2, s, hs, hsub⟩ := ih acc hlt hacc
      exact ⟨h1, h2, s, hs, by simpa using hsub.cons _⟩
    · rw [if_neg hrange]
      by_cases hscore : score < ms
      · rw [if_pos hscore]
        obtain ⟨h1, h2, s, hs, hsub⟩ := ih acc hlt hacc
        exact ⟨h1, h2, s, hs, by simpa using hsub.cons _⟩
      · rw [if_neg hscore]
        by_cases hfilt : matchesFilter (metaAt meta id) filter = true
        · rw [if_neg (by simp [hfilt])]
          have hmprop : ms ≤ (mkMatch meta id score).score ∧
              matchesFilter (mkMatch meta id score).metadata filter = true :=
            ⟨le_of_not_lt hscore, hfilt⟩
          by_cases hfull : topK ≤ (acc ++ [mkMatch meta id score]).length
          · rw [if_pos hfull]
            refine ⟨?_, ?_, [mkMatch meta id score], rfl, ?_⟩
            · simp only [List.length_append, List.length_cons, List.length_nil]
              omega
            · intro r hr
              rcases List.mem_append.mp hr with h | h
              · exact hacc r h
              · rcases List.mem_singleton.mp h with rfl
                exact hmprop
            · have hsc : (mkMatch meta id score).score = score := rfl
              simp only [List.map_cons, List.map_nil, hsc]
              exact List.Sublist.cons₂ _ (List.nil_sublist _)
          · rw [if_neg hfull]
            have hlt' : (acc ++ [mkMatch meta id score]).length < topK := by omega
            have hacc' : ∀ r ∈ acc ++ [mkMatch meta id score],
                ms ≤ r.score ∧ matchesFilter r.metadata filter = true := by
              intro r hr
              rcases List.mem_append.mp hr with h | h
              · exact hacc r h
              · rcases List.mem_singleton.mp h with rfl
                exact hmprop
            obtain ⟨h1, h2, s, hs, hsub⟩ :=
              ih (acc ++ [mkMatch meta id score]) hlt' hacc'
            refine ⟨h1, h2, mkMatch meta id score :: s,
              by rw [hs, List.append_assoc]; rfl, ?_⟩
            have hsc : (mkMatch meta id score).score = score := rfl
            simp only [List.map_cons, hsc]
            exact List.Sublist.cons₂ _ hsub
        · rw [if_pos (by simp [hfilt])]
          obtain ⟨h1, h2, s, hs, hsub⟩ := ih acc hlt hacc
          exact ⟨h1, h2, s, hs, by simpa using hsub.cons _⟩

/-- C3 counterexample: with `topK = 0` and an explicit `searchK`, `search`
accepts one result before the stop-condition is checked, so the result
list is longer than `topK`. -/
theorem search_topk_zero_counterexample :
    (SearchOpts.mk 0 none 0 1).topK = 0 ∧
    ((search ⟨[], []⟩ 0 0 (fun _ => [(0, 1)])
        [[("id", .prim (.s "d1"))]] "q".toList (SearchOpts.mk 0 none 0 1)).1).length
      = 1 :=
  ⟨rfl, by decide⟩

/-- C3 amended: on a retrieval-cache miss with `topK ≥ 1`, `search` returns
at most `topK` results, each with score at least `minScore` and metadata
satisfying the filter, in candidate (descending-score) order, and writes
the accepted list — empty or not — into the pruned retrieval cache under
the composite `(query, filter, topK, minScore, searchK)` key with the
current timestamp. -/
theorem search_miss_properties (st : EngineState) (now ttl : Nat)
    (faiss : Nat → List (Int × ℚ)) (meta : List Metadata) (q : Str)
    (opts : SearchOpts)
    (htopk : 1 ≤ opts.topK)
    (hmiss : jsGet (prunedCache st.retrievalCache (fun e => e.timestamp) ttl now)
        (q, opts.filter, opts.topK, opts.minScore, opts.searchK) = none)
    (hsorted : (faiss (min opts.searchK meta.length)).Pairwise
        (fun a b => b.2 ≤ a.2)) :
    (search st now ttl faiss meta q opts).1.length ≤ opts.topK ∧
    (∀ r ∈ (search st now ttl faiss meta q opts).1,
        opts.minScore ≤ r.score ∧ matchesFilter r.metadata opts.filter = true) ∧
    ((search st now ttl faiss meta q opts).1.map (fun r => r.score)).Pairwise
      (fun a b => b ≤ a) ∧
    (search st now ttl faiss meta q opts).2.retrievalCache =
      jsSet (prunedCache st.retrievalCache (fun e => e.timestamp) ttl now)
        (q, opts.filter, opts.topK, opts.minScore, opts.searchK)
        ⟨(search st now ttl faiss meta q opts).1, now⟩ := by
  obtain ⟨h1, h2, s, hs, hsub⟩ :=
    scanCands_spec meta opts.filter opts.minScore opts.topK
      (faiss (min opts.searchK meta.length)) [] (by simpa using htopk) (by simp)
  have hpair : ((scanCands meta opts.filter opts.minScore opts.topK
      (faiss (min opts.searchK meta.length)) []).map (fun r => r.score)).Pairwise
      (fun a b => b ≤ a) := by
    rw [hs]
    simp only [List.nil_append]
    exact List.Pairwise.sublist hsub
      (List.Pairwise.map (fun c : Int × ℚ => c.2) (fun a b hab => hab) hsorted)
  have hfst : (search st now ttl faiss meta q opts).1 =
      scanCands meta opts.filter opts.minScore opts.topK
        (faiss (min opts.searchK meta.length)) [] := by
    simp only [search, hmiss]
  rw [hfst]
  refine ⟨h1, h2, hpair, ?_⟩
  simp only [search, hmiss]

theorem search_miss_properties_witness :
    (1 ≤ (SearchOpts.mk 1 none 0 2).topK) ∧
    jsGet (prunedCache (EngineState.mk [] []).retrievalCache
        (fun e => e.timestamp) 0 0)
      (("q".toList : Str), (SearchOpts.mk 1 none 0 2).filter,
        (SearchOpts.mk 1 none 0 2).topK, (SearchOpts.mk 1 none 0 2).minScore,
        (SearchOpts.mk 1 none 0 2).searchK) = none ∧
    ((fun _ => [((0 : Int), (2 : ℚ)), (1, 1)]) (min (SearchOpts.mk 1 none 0 2).searchK
        ([[("id", MVal.prim (.s "a"))], [("id", MVal.prim (.s "b"))]].length))).Pairwise
      (fun a b => b.2 ≤ a.2) ∧
    (search ⟨[], []⟩ 0 0 (fun _ => [((0 : Int), (2 : ℚ)), (1, 1)])
        [[("id", MVal.prim (.s "a"))], [("id", MVal.prim (.s "b"))]]
        "q".toList (SearchOpts.mk 1 none 0 2)).1.length ≤ 1 :=
  ⟨by decide, rfl, by decide,
   (search_miss_properties ⟨[], []⟩ 0 0 _ _ _ _ (by decide) rfl (by decide)).1⟩

/-! ## C1 and C2 — retry fallback and error containment in `query` -/

theorem finishQuery_calls (rc : List (RespKey × RespEntry)) (key : RespKey)
    (now : Nat) (complete : Str → Str → Except Unit Str) (q : Str)
    (sr : List RagMatch) (calls : List SearchOpts) :
    (finishQuery rc key now complete q sr calls).2.2 = calls := by
  unfold finishQuery
  split
  · rfl
  · split <;> rfl

/-- C1: on a response-cache miss, when the first (filtered) search attempt
returns zero results and a filter was supplied, `query` performs exactly one
retry with the filter removed and everything else (`topK`, `minScore`,
`searchK`) unchanged; when the retry returns a non-empty list the outcome
is built from it by `generateAnswer`; and a `noResults` outcome is possible
only when the retry also yielded nothing (returned `[]` or threw). -/
theorem query_filtered_retry (rc : List (RespKey × RespEntry)) (now ttl : Nat)
    (searchFn : SearchOpts → Except Unit (List RagMatch))
    (complete : Str → Str → Except Unit Str) (q : Str) (opts : SearchOpts)
    (f : Filt)
    (hmiss : jsGet (prunedCache rc (fun e => e.timestamp) ttl now)
        (q, opts.filter, opts.topK, opts.minScore) = none)
    (hf : opts.filter = some f)
    (h1 : searchFn opts = .ok []) :
    (query rc now ttl searchFn complete q opts).2.2 =
      [opts, { opts with filter := none }] ∧
    (∀ rs, searchFn { opts with filter := none } = .ok rs → rs ≠ [] →
      (query rc now ttl searchFn complete q opts).1 =
        (generateAnswer complete q rs).map
          (fun a => { answer := a.answer, sources := a.sources,
                      confidence := a.confidence })) ∧
    (∀ res, (query rc now ttl searchFn complete q opts).1 = .ok res →
      res.noResults = true →
      searchFn { opts with filter := none } = .ok [] ∨
      searchFn { opts with filter := none } = .error ()) := by
  have hsome : opts.filter.isSome = true := by rw [hf]; rfl
  have hrun : query rc now ttl searchFn complete q opts =
      finishQuery (prunedCache rc (fun e => e.timestamp) ttl now)
        (q, opts.filter, opts.topK, opts.minScore) now complete q
        (match searchFn { opts with filter := none } with
         | .ok l => l
         | .error _ => [])
        [opts, { opts with filter := none }] := by
    simp [query, hmiss, h1, hsome]
  refine ⟨?_, ?_, ?_⟩
  · rw [hrun]
    exact finishQuery_calls _ _ _ _ _ _ _
  · intro rs h2 hne
    rw [hrun, h2]
    show (finishQuery _ _ _ _ _ rs _).1 = _
    unfold finishQuery
    rw [if_neg (by simp [hne])]
    cases hg : generateAnswer complete q rs with
    | error e => simp [hg, Except.map]
    | ok a => simp [hg, Except.map]
  · intro res hok hnr
    cases h2 : searchFn { opts with filter := none } with
    | error e =>
      cases e
      exact Or.inr rfl
    | ok rs =>
      cases rs with
      | nil => exact Or.inl rfl
      | cons m ms =>
        rw [hrun, h2] at hok
        replace hok : (finishQuery (prunedCache rc (fun e => e.timestamp) ttl now)
            (q, opts.filter, opts.topK, opts.minScore) now complete q (m :: ms)
            [opts, { opts with filter := none }]).1 = .ok res := hok
        unfold finishQuery at hok
        rw [if_neg (by simp)] at hok
        cases hg : generateAnswer complete q (m :: ms) with
        | error e =>
          rw [hg] at hok
          simp at hok
        | ok a =>
          rw [hg] at hok
          simp only [Except.ok.injEq] at hok
          rw [← hok] at hnr
          simp at hnr

/-- A search hit used by the retry witnesses. -/
def matchOne : RagMatch :=
  ⟨some (.prim (.s "d1")), 1,
   [("id", .prim (.s "d1")), ("text", .prim (.s "DL380 document text")),
    ("source", .prim (.s "family-guide.pdf"))]⟩

/-- Search oracle that finds nothing under a filter and one hit without. -/
def searchFnRetry : SearchOpts → Except Unit (List RagMatch) :=
  fun o => if o.filter.isSome then .ok [] else .ok [matchOne]

def completeOk : Str → Str → Except Unit Str :=
  fun _ _ => .ok "The DL380 supports it.".toList

def optsFiltered : SearchOpts :=
  { topK := 3, filter := some (prodFilter "DL380"), minScore := 0, searchK := 9 }

theorem query_filtered_retry_witness :
    jsGet (prunedCache [] (fun (e : RespEntry) => e.timestamp) 0 0)
      (("q".toList : Str), optsFiltered.filter, optsFiltered.topK,
        optsFiltered.minScore) = none ∧
    optsFiltered.filter = some (prodFilter "DL380") ∧
    searchFnRetry optsFiltered = .ok [] ∧
    (query [] 0 0 searchFnRetry completeOk "q".toList optsFiltered).2.2 =
      [optsFiltered, { optsFiltered with filter := none }] :=
  ⟨rfl, rfl, rfl,
   (query_filtered_retry [] 0 0 searchFnRetry completeOk "q".toList optsFiltered
     (prodFilter "DL380") rfl rfl rfl).1⟩

/-- Completion oracle that always throws. -/
def completeThrow : Str → Str → Except Unit Str := fun _ _ => .error ()

/-- Search oracle that always finds the single hit. -/
def searchFnHit : SearchOpts → Except Unit (List RagMatch) :=
  fun _ => .ok [matchOne]

/-- C2 counterexample: when the search succeeds with results but the
completion provider throws, `query` propagates the exception to its caller
— the orchestrator does not catch `generateAnswer` failures. -/
theorem query_completion_throw_counterexample :
    (query [] 0 0 searchFnHit completeThrow "q".toList
      { topK := 3, filter := none, minScore := 0, searchK := 9 }).1 =
      .error () := rfl

/-- C2 amended: throws from the embedding provider or the vector-index
search (the two collaborators reached through `search`) are caught and
degrade that attempt to zero results — if every search attempt throws, the
caller still receives the distinguished no-results outcome — but a throw
from the completion provider inside `generateAnswer` is not caught, so the
caller is guaranteed an `Answer`-or-no-results outcome only when the
completion provider does not throw. -/
theorem query_no_propagation_amended (rc : List (RespKey × RespEntry))
    (now ttl : Nat) (searchFn : SearchOpts → Except Unit (List RagMatch))
    (complete : Str → Str → Except Unit Str) (q : Str) (opts : SearchOpts)
    (hcf : ∀ c u, complete c u ≠ Except.error ()) :
    (∃ res, (query rc now ttl searchFn complete q opts).1 = .ok res) ∧
    (jsGet (prunedCache rc (fun e => e.timestamp) ttl now)
        (q, opts.filter, opts.topK, opts.minScore) = none →
      (∀ o, searchFn o = .error ()) →
      (query rc now ttl searchFn complete q opts).1 = .ok noResultsRes) := by
  have hgen : ∀ sr, ∃ a, generateAnswer complete q sr = .ok a := by
    intro sr
    unfold generateAnswer
    split
    · exact ⟨_, rfl⟩
    · cases hc : complete (sysPromptPrefix ++ promptContext sr) q with
      | error e =>
        cases e
        exact absurd hc (hcf _ _)
      | ok choice => exact ⟨_, rfl⟩
  have hfin : ∀ (rc' : List (RespKey × RespEntry)) key sr calls,
      ∃ res, (finishQuery rc' key now complete q sr calls).1 = .ok res := by
    intro rc' key sr calls
    unfold finishQuery
    split
    · exact ⟨noResultsRes, rfl⟩
    · obtain ⟨a, ha⟩ := hgen sr
      rw [ha]
      exact ⟨_, rfl⟩
  constructor
  · cases hcache : jsGet (prunedCache rc (fun e => e.timestamp) ttl now)
        (q, opts.filter, opts.topK, opts.minScore) with
    | some e =>
      refine ⟨{ answer := e.answer.answer, sources := e.answer.sources, confidence := e.answer.confidence, noResults := false, cached := true }, ?_⟩
      simp [query, hcache]
    | none =>
      have hq : (query rc now ttl searchFn complete q opts).1 =
          (if ((match searchFn opts with
              | .ok l => l
              | .error _ => []).isEmpty && opts.filter.isSome) = true then
            finishQuery (prunedCache rc (fun e => e.timestamp) ttl now)
              (q, opts.filter, opts.topK, opts.minScore) now complete q
              (match searchFn { opts with filter := none } with
               | .ok l => l
               | .error _ => [])
              [opts, { opts with filter := none }]
          else
            finishQuery (prunedCache rc (fun e => e.timestamp) ttl now)
              (q, opts.filter, opts.topK, opts.minScore) now complete q
              (match searchFn opts with
               | .ok l => l
               | .error _ => [])
              [opts]).1 := by
        simp [query, hcache]
      rw [hq]
      split
      · exact hfin _ _ _ _
      · exact hfin _ _ _ _
  · intro hmiss hthrow
    have hq : (query rc now ttl searchFn complete q opts).1 =
        (if opts.filter.isSome = true then
          finishQuery (prunedCache rc (fun e => e.timestamp) ttl now)
            (q, opts.filter, opts.topK, opts.minScore) now complete q
            ([] : List RagMatch) [opts, { opts with filter := none }]
        else
          finishQuery (prunedCache rc (fun e => e.timestamp) ttl now)
            (q, opts.filter, opts.topK, opts.minScore) now complete q
            ([] : List RagMatch) [opts]).1 := by
      simp [query, hmiss, hthrow]
    rw [hq]
    split
    · simp [finishQuery]
    · simp [finishQuery]

theorem query_no_propagation_witness :
    (∀ c u, completeOk c u ≠ Except.error ()) ∧
    (∃ res, (query [] 0 0 (fun _ => Except.error ()) completeOk "q".toList
        { topK := 3, filter := none, minScore := 0, searchK := 9 }).1 =
      .ok res) :=
  ⟨fun _ _ h => Except.noConfusion h,
   (query_no_propagation_amended [] 0 0 (fun _ => Except.error ()) completeOk
     "q".toList { topK := 3, filter := none, minScore := 0, searchK := 9 }
     (fun _ _ h => Except.noConfusion h)).1⟩

end AvatarRag
